import Mathlib

/-!
Verification development for the toospicy accessibility widget core:
the settings/profile manager (`src/core/settings.js`), the persistent
key-value store (`src/core/storage.js`) and the event bus
(`src/core/events.js`), shallowly embedded as pure Lean functions.

JS objects used as string-keyed mappings are embedded as association
lists that keep insertion order, with `obj[k] = v` updating the first
matching entry in place (preserving key position) and appending fresh
keys at the end, exactly as JS object assignment behaves.
-/

namespace Spicy

/-- A setting value: the defaults and presets use booleans and small
integers (font-size percentages), so values are a boolean/number sum. -/
inductive SVal where
  | b (x : Bool)
  | n (x : Int)
  deriving DecidableEq, Repr

/-- A flat settings mapping, as stored in `this.settings` and inside
each profile: a JS object from setting id to value. -/
abbrev SettingsMap := List (String × SVal)

/-- The profile mapping `this.profiles`: profile name to settings map. -/
abbrev ProfilesMap := List (String × SettingsMap)

/-- JS property read `obj[k]`: the value of the entry with key `k`,
or `none` (undefined) when no entry has that key. -/
def jsGet {α : Type} : List (String × α) → String → Option α
  | [], _ => none
  | (k0, v0) :: rest, k => if k0 = k then some v0 else jsGet rest k

/-- JS property write `obj[k] = v`: overwrite the existing entry in
place (keeping its position) or append a fresh entry at the end. -/
def jsSet {α : Type} : List (String × α) → String → α → List (String × α)
  | [], k, v => [(k, v)]
  | (k0, v0) :: rest, k, v =>
    if k0 = k then (k0, v) :: rest else (k0, v0) :: jsSet rest k v

/-- JS `delete obj[k]`: drop the entry with key `k`. -/
def jsDelete {α : Type} : List (String × α) → String → List (String × α)
  | [], _ => []
  | (k0, v0) :: rest, k =>
    if k0 = k then jsDelete rest k else (k0, v0) :: jsDelete rest k

/-- `Object.assign(obj, updates)` and the tail of a spread literal
`\x7b ...base, k1: v1, ... \x7d`: fold each update into the mapping. -/
def jsAssign {α : Type} (m : List (String × α)) (updates : List (String × α)) :
    List (String × α) :=
  updates.foldl (fun acc p => jsSet acc p.1 p.2) m

theorem jsGet_jsSet_self {α : Type} (m : List (String × α)) (k : String) (v : α) :
    jsGet (jsSet m k v) k = some v := by
  induction m with
  | nil => simp [jsSet, jsGet]
  | cons hd tl ih =>
    obtain ⟨k0, v0⟩ := hd
    by_cases h : k0 = k
    · simp [jsSet, jsGet, h]
    · simp [jsSet, jsGet, h, ih]

theorem jsGet_jsSet_ne {α : Type} (m : List (String × α)) (k k' : String) (v : α)
    (h : k' ≠ k) : jsGet (jsSet m k v) k' = jsGet m k' := by
  have h2 : ¬ (k = k') := fun hh => h hh.symm
  induction m with
  | nil => simp [jsSet, jsGet, h2]
  | cons hd tl ih =>
    obtain ⟨k0, v0⟩ := hd
    by_cases h0 : k0 = k
    · subst h0
      simp [jsSet, jsGet, h2]
    · by_cases h1 : k0 = k'
      · simp [jsSet, jsGet, h0, h1, h]
      · simp [jsSet, jsGet, h0, h1, ih]

theorem jsGet_isSome_jsSet {α : Type} (m : List (String × α)) (k k' : String) (v : α)
    (h : (jsGet m k').isSome) : (jsGet (jsSet m k v) k').isSome := by
  by_cases hk : k' = k
  · subst hk; simp [jsGet_jsSet_self]
  · rw [jsGet_jsSet_ne m k k' v hk]; exact h

theorem mem_of_mem_jsDelete {α : Type} (m : List (String × α)) (k : String)
    (p : String × α) : p ∈ jsDelete m k → p ∈ m := by
  induction m with
  | nil => intro h; simp [jsDelete] at h
  | cons hd tl ih =>
    obtain ⟨k0, v0⟩ := hd
    intro h
    by_cases h0 : k0 = k
    · simp only [jsDelete, if_pos h0] at h
      exact List.mem_cons_of_mem _ (ih h)
    · simp only [jsDelete, if_neg h0, List.mem_cons] at h
      rcases h with h | h
      · exact List.mem_cons.mpr (Or.inl h)
      · exact List.mem_cons_of_mem _ (ih h)

theorem mem_jsSet {α : Type} (m : List (String × α)) (k : String) (v : α)
    (p : String × α) : p ∈ jsSet m k v → p = (k, v) ∨ p ∈ m := by
  induction m with
  | nil => intro h; simpa [jsSet] using h
  | cons hd tl ih =>
    obtain ⟨k0, v0⟩ := hd
    intro h
    by_cases h0 : k0 = k
    · subst h0
      simp [jsSet] at h
      rcases h with h | h
      · exact Or.inl (by simp [h])
      · exact Or.inr (List.mem_cons_of_mem _ h)
    · simp only [jsSet, if_neg h0, List.mem_cons] at h
      rcases h with h | h
      · exact Or.inr (List.mem_cons.mpr (Or.inl h))
      · rcases ih h with h1 | h1
        · exact Or.inl h1
        · exact Or.inr (List.mem_cons_of_mem _ h1)

theorem jsGet_mem {α : Type} (m : List (String × α)) (k : String) (v : α) :
    jsGet m k = some v → (k, v) ∈ m := by
  induction m with
  | nil => intro h; simp [jsGet] at h
  | cons hd tl ih =>
    obtain ⟨k0, v0⟩ := hd
    intro h
    by_cases h0 : k0 = k
    · subst h0
      simp [jsGet] at h
      subst h
      exact List.mem_cons_self _ _
    · simp only [jsGet, if_neg h0] at h
      exact List.mem_cons_of_mem _ (ih h)

theorem jsGet_isSome_iff_mem_keys {α : Type} (m : List (String × α)) (k : String) :
    (jsGet m k).isSome ↔ k ∈ m.map Prod.fst := by
  induction m with
  | nil => simp [jsGet]
  | cons hd tl ih =>
    obtain ⟨k0, v0⟩ := hd
    by_cases h0 : k0 = k
    · subst h0; simp [jsGet]
    · have h1 : ¬ (k = k0) := fun hh => h0 hh.symm
      simp [jsGet, h0, h1, ih]

/-! ## Persistent key-value store (`src/core/storage.js`, class `Storage`)

The store holds two cells relevant to the settings manager: the strings
stored under keys `spicy-spicySettings` and `spicy-spicyProfiles`.  A
stored string is abstracted by the `Slot` type: it is either absent
(`localStorage.getItem` returned null), the empty string (falsy in JS,
so `load` treats it like absent), the JSON serialization of a mapping of
the expected shape (the only thing the manager itself ever writes, via
`JSON.stringify`), or a non-empty string that is not valid JSON, on
which `JSON.parse` throws. -/

/-- Content of one store cell, as observed through string reads. -/
inductive Slot (α : Type) where
  | absent
  | emptyStr
  | json (v : α)
  | malformed
  deriving DecidableEq

/-- Embedding of the `Storage` class.  `isAvailable` is the result of
`checkAvailability()` computed in the constructor; `autoSave` is the
constructor flag; `readFails` / `writeFails` model the underlying
`localStorage` calls throwing (caught per call in the JS methods). -/
structure Storage where
  isAvailable : Bool
  autoSave : Bool
  readFails : Bool
  writeFails : Bool
  settingsCell : Slot SettingsMap
  profilesCell : Slot ProfilesMap
  deriving DecidableEq

/-- `storage.getItem("spicySettings")`: null when unavailable; a read
failure is caught and also yields null; otherwise the cell content. -/
def Storage.getItemSettings (s : Storage) : Slot SettingsMap :=
  if s.isAvailable then (if s.readFails then Slot.absent else s.settingsCell)
  else Slot.absent

/-- `storage.getItem("spicyProfiles")`, same shape. -/
def Storage.getItemProfiles (s : Storage) : Slot ProfilesMap :=
  if s.isAvailable then (if s.readFails then Slot.absent else s.profilesCell)
  else Slot.absent

/-- `storage.setItem("spicySettings", JSON.stringify(m))`: returns false
when unavailable or autoSave is off; a write failure is caught and
returns false; otherwise stores the serialized mapping, returns true. -/
def Storage.setItemSettings (s : Storage) (m : SettingsMap) : Bool × Storage :=
  if s.isAvailable && s.autoSave then
    if s.writeFails then (false, s)
    else (true, { s with settingsCell := Slot.json m })
  else (false, s)

/-- `storage.setItem("spicyProfiles", JSON.stringify(p))`. -/
def Storage.setItemProfiles (s : Storage) (p : ProfilesMap) : Bool × Storage :=
  if s.isAvailable && s.autoSave then
    if s.writeFails then (false, s)
    else (true, { s with profilesCell := Slot.json p })
  else (false, s)

/-! ## Event bus traffic produced by the settings manager

Only the events the `Settings` class emits are modelled here; each
carries the payload the JS call passes (the full event bus itself, with
subscriber dispatch, is embedded further below for the bus claims). -/

/-- The detail argument of a `settings:changed` emission. -/
inductive ChangeDetail where
  | single (key : String) (value : SVal)
  | multi (updates : SettingsMap)
  deriving DecidableEq

/-- One emission by the settings manager, with its payload. -/
inductive Ev where
  | loaded (m : SettingsMap)
  | saved (m : SettingsMap)
  | changed (m : SettingsMap) (detail : ChangeDetail)
  | reset (m : SettingsMap)
  | profileLoaded (name : String) (m : SettingsMap)
  | profileSaved (name : String) (m : SettingsMap)
  | profileDeleted (name : String)
  deriving DecidableEq

/-! ## Settings manager (`src/core/settings.js`, class `Settings`) -/

/-- The `this.defaultSettings` mapping initialized in the constructor. -/
def defaultSettings : SettingsMap :=
  [("fontSize", SVal.n 100),
   ("lineHeight", SVal.b false),
   ("letterSpacing", SVal.b false),
   ("dyslexicFont", SVal.b false),
   ("contrast", SVal.b false),
   ("darkMode", SVal.b false),
   ("lightMode", SVal.b false),
   ("grayscale", SVal.b false),
   ("highlightLinks", SVal.b false),
   ("readingGuide", SVal.b false),
   ("hideImages", SVal.b false),
   ("pauseAnimations", SVal.b false),
   ("bigCursor", SVal.b false),
   ("focusIndicator", SVal.b false),
   ("pageStructure", SVal.b false),
   ("textToSpeech", SVal.b false),
   ("tooltips", SVal.b false)]

/-- Embedding of the `Settings` class state: the injected store plus the
two owned mappings (the injected event bus is represented by returning
the list of emissions from each operation). -/
structure Settings where
  storage : Storage
  settings : SettingsMap
  profiles : ProfilesMap
  deriving DecidableEq

/-- The constructor: both mappings start empty. -/
def Settings.init (storage : Storage) : Settings :=
  { storage := storage, settings := [], profiles := [] }

/-- `getDefaultProfiles()`: the seven built-in presets, each a spread of
`defaultSettings` with a few overridden keys. -/
def getDefaultProfiles : ProfilesMap :=
  [("default", defaultSettings),
   ("highContrast", jsAssign defaultSettings
      [("contrast", SVal.b true), ("highlightLinks", SVal.b true),
       ("focusIndicator", SVal.b true)]),
   ("dyslexic", jsAssign defaultSettings
      [("dyslexicFont", SVal.b true), ("lineHeight", SVal.b true),
       ("letterSpacing", SVal.b true), ("fontSize", SVal.n 120)]),
   ("senior", jsAssign defaultSettings
      [("fontSize", SVal.n 150), ("highlightLinks", SVal.b true),
       ("bigCursor", SVal.b true), ("focusIndicator", SVal.b true)]),
   ("lowVision", jsAssign defaultSettings
      [("fontSize", SVal.n 175), ("contrast", SVal.b true),
       ("highlightLinks", SVal.b true), ("bigCursor", SVal.b true)]),
   ("motor", jsAssign defaultSettings
      [("bigCursor", SVal.b true), ("focusIndicator", SVal.b true),
       ("pauseAnimations", SVal.b true)]),
   ("cognitive", jsAssign defaultSettings
      [("readingGuide", SVal.b true), ("pauseAnimations", SVal.b true),
       ("lineHeight", SVal.b true)])]

/-- `savedX ? JSON.parse(savedX) : fallback`: null and the empty string
are falsy, so they select the fallback; valid JSON parses to its value;
any other string makes `JSON.parse` throw, modelled as `Except.error`. -/
def parseOrDefault {α : Type} (slot : Slot α) (fallback : α) : Except Unit α :=
  match slot with
  | Slot.absent => Except.ok fallback
  | Slot.emptyStr => Except.ok fallback
  | Slot.json v => Except.ok v
  | Slot.malformed => Except.error ()

/-- `load()`: read both cells, fall back to the defaults when a read is
falsy, then emit `settings:loaded`.  `JSON.parse` throwing propagates to
the caller (there is no try/catch in `load`). -/
def Settings.load (st : Settings) : Except Unit (Settings × List Ev) :=
  match parseOrDefault st.storage.getItemSettings defaultSettings with
  | Except.error e => Except.error e
  | Except.ok s =>
    match parseOrDefault st.storage.getItemProfiles getDefaultProfiles with
    | Except.error e => Except.error e
    | Except.ok p =>
      Except.ok ({ st with settings := s, profiles := p }, [Ev.loaded s])

/-- `save()`: write the current settings (return value of `setItem` is
discarded by the JS code) and emit `settings:saved`. -/
def Settings.save (st : Settings) : Settings × List Ev :=
  let r := st.storage.setItemSettings st.settings
  ({ st with storage := r.2 }, [Ev.saved st.settings])

/-- `updateSetting(key, value)`: write the key, `save()`, then emit
`settings:changed` with the full mapping and the single-key detail. -/
def Settings.updateSetting (st : Settings) (key : String) (value : SVal) :
    Settings × List Ev :=
  let st1 := { st with settings := jsSet st.settings key value }
  let r := st1.save
  (r.1, r.2 ++ [Ev.changed r.1.settings (ChangeDetail.single key value)])

/-- `updateSettings(updates)`: `Object.assign` the updates into the
mapping, `save()`, then emit `settings:changed` with the updates detail. -/
def Settings.updateSettings (st : Settings) (updates : SettingsMap) :
    Settings × List Ev :=
  let st1 := { st with settings := jsAssign st.settings updates }
  let r := st1.save
  (r.1, r.2 ++ [Ev.changed r.1.settings (ChangeDetail.multi updates)])

/-- `getSetting(key)`. -/
def Settings.getSetting (st : Settings) (key : String) : Option SVal :=
  jsGet st.settings key

/-- `getAll()`: the spread copy of the settings mapping (a fresh object
with the same entries; in this value embedding the entry list itself). -/
def Settings.getAll (st : Settings) : SettingsMap :=
  st.settings

/-- `resetAll()`: replace the mapping with a spread copy of the
defaults, `save()`, emit `settings:reset`. -/
def Settings.resetAll (st : Settings) : Settings × List Ev :=
  let st1 := { st with settings := defaultSettings }
  let r := st1.save
  (r.1, r.2 ++ [Ev.reset r.1.settings])

/-- `loadProfile(name)`: when the profile exists (profile values are
objects, hence truthy), replace the settings with a spread copy of it,
`save()`, emit `settings:profile:loaded`; otherwise only warn. -/
def Settings.loadProfile (st : Settings) (name : String) : Settings × List Ev :=
  match jsGet st.profiles name with
  | some prof =>
    let st1 := { st with settings := prof }
    let r := st1.save
    (r.1, r.2 ++ [Ev.profileLoaded name r.1.settings])
  | none => (st, [])

/-- `saveProfile(name)`: refuse only the name `default`; otherwise store
a spread copy of the current settings under `name`, persist the profile
mapping, emit `settings:profile:saved`, return true. -/
def Settings.saveProfile (st : Settings) (name : String) :
    Bool × Settings × List Ev :=
  if name = "default" then (false, st, [])
  else
    let profiles1 := jsSet st.profiles name st.settings
    let r := st.storage.setItemProfiles profiles1
    (true, { st with profiles := profiles1, storage := r.2 },
      [Ev.profileSaved name st.settings])

/-- The reserved names checked by `deleteProfile`. -/
def builtInProfiles : List String :=
  ["default", "highContrast", "dyslexic", "senior", "lowVision", "motor",
   "cognitive"]

/-- `deleteProfile(name)`: refuse every built-in name; otherwise delete
an existing profile, persist, emit `settings:profile:deleted`, return
true; a missing name returns false with no event. -/
def Settings.deleteProfile (st : Settings) (name : String) :
    Bool × Settings × List Ev :=
  if name ∈ builtInProfiles then (false, st, [])
  else
    match jsGet st.profiles name with
    | some _ =>
      let profiles1 := jsDelete st.profiles name
      let r := st.storage.setItemProfiles profiles1
      (true, { st with profiles := profiles1, storage := r.2 },
        [Ev.profileDeleted name])
    | none => (false, st, [])

/-- `getProfiles()`: the spread copy of the profile mapping. -/
def Settings.getProfiles (st : Settings) : ProfilesMap :=
  st.profiles

/-! ## Example states used to instantiate theorems with hypotheses -/

/-- A store as constructed in a browser where local storage works and
autoSave is on, before anything has been written. -/
def freshStorage : Storage :=
  { isAvailable := true, autoSave := true, readFails := false,
    writeFails := false, settingsCell := Slot.absent,
    profilesCell := Slot.absent }

/-- A store whose availability probe failed (privacy mode or quota). -/
def unavailStorage : Storage :=
  { isAvailable := false, autoSave := true, readFails := false,
    writeFails := false, settingsCell := Slot.absent,
    profilesCell := Slot.absent }

/-- Manager state right after construction and `load()` on a fresh
store: default settings and the built-in profiles. -/
def egSettings : Settings :=
  { storage := freshStorage, settings := defaultSettings,
    profiles := getDefaultProfiles }

/-- Same state but with the store unavailable. -/
def egSettingsUnavail : Settings :=
  { storage := unavailStorage, settings := defaultSettings,
    profiles := getDefaultProfiles }

/-! ## C5: loadProfile on a missing name is a silent no-op -/

/-- C5: for every profile name not present in the profile mapping,
`loadProfile(name)` leaves the whole manager state (settings mapping,
profile mapping, store) unchanged, publishes no event, and throws no
error: the operation returns exactly the input state with an empty
emission list. -/
theorem c5_loadProfile_missing_silent_noop (st : Settings) (name : String)
    (h : jsGet st.profiles name = none) :
    st.loadProfile name = (st, []) := by
  simp [Settings.loadProfile, h]

/-- Witness for C5 at a concrete state: the freshly loaded manager has
no profile named `nope`, and loading it is a silent no-op. -/
theorem c5_witness :
    egSettings.loadProfile "nope" = (egSettings, []) :=
  c5_loadProfile_missing_silent_noop egSettings "nope" (by rfl)

/-! ## C4: updateSetting with the store unavailable -/

/-- C4: when the store is unavailable, `updateSetting(key, value)` still
updates the in-memory mapping so that `getSetting(key)` yields `value`,
still publishes `settings:changed` with that key/value detail, the
underlying `setItem` call made by `save()` returns false (without
throwing: the embedding of `setItem` is a total function), and the store
is left unchanged. -/
theorem c4_updateSetting_store_unavailable (st : Settings) (key : String)
    (value : SVal) (h : st.storage.isAvailable = false) :
    (st.updateSetting key value).1.getSetting key = some value ∧
    Ev.changed (st.updateSetting key value).1.settings
        (ChangeDetail.single key value) ∈ (st.updateSetting key value).2 ∧
    (st.storage.setItemSettings (jsSet st.settings key value)).1 = false ∧
    (st.updateSetting key value).1.storage = st.storage := by
  refine ⟨?_, ?_, ?_, ?_⟩
  · simp [Settings.updateSetting, Settings.save, Settings.getSetting,
      Storage.setItemSettings, h, jsGet_jsSet_self]
  · simp [Settings.updateSetting, Settings.save]
  · simp [Storage.setItemSettings, h]
  · simp [Settings.updateSetting, Settings.save, Storage.setItemSettings, h]

/-- Witness for C4 at a concrete state with the store unavailable. -/
theorem c4_witness :
    (egSettingsUnavail.updateSetting "fontSize" (SVal.n 150)).1.getSetting
        "fontSize" = some (SVal.n 150) ∧
    Ev.changed (egSettingsUnavail.updateSetting "fontSize" (SVal.n 150)).1.settings
        (ChangeDetail.single "fontSize" (SVal.n 150))
        ∈ (egSettingsUnavail.updateSetting "fontSize" (SVal.n 150)).2 ∧
    (egSettingsUnavail.storage.setItemSettings
        (jsSet egSettingsUnavail.settings "fontSize" (SVal.n 150))).1 = false ∧
    (egSettingsUnavail.updateSetting "fontSize" (SVal.n 150)).1.storage
        = egSettingsUnavail.storage :=
  c4_updateSetting_store_unavailable egSettingsUnavail "fontSize" (SVal.n 150)
    (by rfl)

/-! ## C10: saveProfile reports name validity, not persistence -/

/-- C10: for every manager state and every profile name other than
`default`, `saveProfile(name)` returns true, whatever the store flags
are; and whenever the store is unavailable or autoSave is disabled, the
`setItem` call it performs returns false — so the boolean reports name
validity, not persistence success. -/
theorem c10_saveProfile_true_regardless_of_persistence (st : Settings)
    (name : String) (h : name ≠ "default") :
    (st.saveProfile name).1 = true ∧
    ((st.storage.isAvailable = false ∨ st.storage.autoSave = false) →
      (st.storage.setItemProfiles (jsSet st.profiles name st.settings)).1
        = false) := by
  constructor
  · simp [Settings.saveProfile, h]
  · intro hcase
    rcases hcase with hc | hc <;> simp [Storage.setItemProfiles, hc]

/-- Witness for C10 at a concrete state with the store unavailable. -/
theorem c10_witness :
    (egSettingsUnavail.saveProfile "myProfile").1 = true ∧
    ((egSettingsUnavail.storage.isAvailable = false ∨
      egSettingsUnavail.storage.autoSave = false) →
      (egSettingsUnavail.storage.setItemProfiles
        (jsSet egSettingsUnavail.profiles "myProfile"
          egSettingsUnavail.settings)).1 = false) :=
  c10_saveProfile_true_regardless_of_persistence egSettingsUnavail "myProfile"
    (by decide)

/-! ## C6: profile save/load round trip -/

/-- A sequence of `updateSetting` calls, keeping only the states. -/
def applyUpdates (st : Settings) (us : List (String × SVal)) : Settings :=
  us.foldl (fun s p => (s.updateSetting p.1 p.2).1) st

theorem updateSetting_fst_profiles (st : Settings) (k : String) (v : SVal) :
    (st.updateSetting k v).1.profiles = st.profiles := by
  simp [Settings.updateSetting, Settings.save]

theorem applyUpdates_profiles (us : List (String × SVal)) (st : Settings) :
    (applyUpdates st us).profiles = st.profiles := by
  induction us generalizing st with
  | nil => rfl
  | cons hd tl ih =>
    show (applyUpdates ((st.updateSetting hd.1 hd.2).1) tl).profiles = _
    rw [ih, updateSetting_fst_profiles]

theorem saveProfile_profiles (st : Settings) (name : String)
    (h : name ≠ "default") :
    (st.saveProfile name).2.1.profiles = jsSet st.profiles name st.settings := by
  simp [Settings.saveProfile, h]

/-- C6: for every profile name other than `default`, saving a profile,
then performing any sequence of `updateSetting` calls, then loading the
profile back, makes `getAll()` equal (deep-equal: entry for entry) to
the settings mapping as it was at the moment of the save. -/
theorem c6_profile_round_trip (st : Settings) (name : String)
    (h : name ≠ "default") (mid : List (String × SVal)) :
    ((applyUpdates (st.saveProfile name).2.1 mid).loadProfile name).1.getAll
      = st.getAll := by
  have hprof : (applyUpdates (st.saveProfile name).2.1 mid).profiles
      = jsSet st.profiles name st.settings := by
    rw [applyUpdates_profiles, saveProfile_profiles st name h]
  have hget : jsGet (applyUpdates (st.saveProfile name).2.1 mid).profiles name
      = some st.settings := by
    rw [hprof]; exact jsGet_jsSet_self _ _ _
  simp [Settings.loadProfile, hget, Settings.save, Settings.getAll]

/-- Witness for C6 at a concrete state: save `foo`, change the font
size twice, load `foo` back, and the original mapping returns. -/
theorem c6_witness :
    ((applyUpdates (egSettings.saveProfile "foo").2.1
        [("fontSize", SVal.n 150), ("darkMode", SVal.b true)]).loadProfile
        "foo").1.getAll = egSettings.getAll :=
  c6_profile_round_trip egSettings "foo" (by decide)
    [("fontSize", SVal.n 150), ("darkMode", SVal.b true)]

/-! ## C1: which reserved profiles are actually protected -/

/-- Counterexample to C1 as stated: `highContrast` is one of the
reserved built-in names, yet `saveProfile("highContrast")` on the
freshly loaded manager returns true and mutates the profile mapping,
overwriting the `highContrast` entry with the current settings. -/
theorem c1_counterexample :
    "highContrast" ∈ builtInProfiles ∧
    (egSettings.saveProfile "highContrast").1 = true ∧
    jsGet (egSettings.saveProfile "highContrast").2.1.profiles "highContrast"
      ≠ jsGet egSettings.profiles "highContrast" := by
  refine ⟨by decide, by rfl, by decide⟩

/-- C1 (amended): `deleteProfile` on any reserved built-in name returns
false and leaves the whole state unchanged with no event, and
`saveProfile` rejects exactly the name `default` the same way — but
only `default` is protected from `saveProfile`; the other six reserved
names can be overwritten by it. -/
theorem c1_amended_reserved_protection (st : Settings) (name : String)
    (h : name ∈ builtInProfiles) :
    st.deleteProfile name = (false, st, []) ∧
    st.saveProfile "default" = (false, st, []) := by
  constructor
  · simp [Settings.deleteProfile, h]
  · simp [Settings.saveProfile]

/-- Witness for the amended C1 at a concrete state and reserved name. -/
theorem c1_witness :
    egSettings.deleteProfile "senior" = (false, egSettings, []) ∧
    egSettings.saveProfile "default" = (false, egSettings, []) :=
  c1_amended_reserved_protection egSettings "senior" (by decide)

/-! ## C3: totality of load -/

/-- A store holding a string that is not valid JSON in the settings
cell, with local storage available. -/
def malformedStorage : Storage :=
  { isAvailable := true, autoSave := true, readFails := false,
    writeFails := false, settingsCell := Slot.malformed,
    profilesCell := Slot.absent }

/-- Counterexample to C3 as stated: with an arbitrary (non-JSON) string
stored under the settings key, `load()` throws — `JSON.parse` is not
guarded by any try/catch, so the stored garbage is not treated as
absent. -/
theorem c3_counterexample :
    (Settings.init malformedStorage).load = Except.error () := by rfl

theorem parseOrDefault_ok {α : Type} (slot : Slot α) (fb : α)
    (h : slot ≠ Slot.malformed) :
    ∃ v, parseOrDefault slot fb = Except.ok v ∧
      ((slot = Slot.absent ∨ slot = Slot.emptyStr) → v = fb) := by
  cases slot with
  | absent => exact ⟨fb, rfl, fun _ => rfl⟩
  | emptyStr => exact ⟨fb, rfl, fun _ => rfl⟩
  | json v => exact ⟨v, rfl, by intro hc; rcases hc with hc | hc <;> cases hc⟩
  | malformed => exact absurd rfl h

/-- C3 (amended): `load()` never throws provided each stored entry is
absent, empty, or valid JSON — in particular any content the manager
itself persisted; a failing storage read yields null and is treated as
absent, and when the settings read is absent or empty the built-in
default mapping is used.  (Every other public method of the manager is
embedded as a plain total function: only `load` can throw, through
`JSON.parse` on a malformed stored string.) -/
theorem c3_amended_load_total_on_wellformed (st : Settings)
    (hs : st.storage.getItemSettings ≠ Slot.malformed)
    (hp : st.storage.getItemProfiles ≠ Slot.malformed) :
    ∃ st1 ev, st.load = Except.ok (st1, ev) ∧
      ((st.storage.getItemSettings = Slot.absent ∨
        st.storage.getItemSettings = Slot.emptyStr) →
        st1.settings = defaultSettings) := by
  obtain ⟨s, hs1, hs2⟩ := parseOrDefault_ok st.storage.getItemSettings
    defaultSettings hs
  obtain ⟨p, hp1, hp2⟩ := parseOrDefault_ok st.storage.getItemProfiles
    getDefaultProfiles hp
  refine ⟨{ st with settings := s, profiles := p }, [Ev.loaded s], ?_, ?_⟩
  · simp [Settings.load, hs1, hp1]
  · intro hcase
    simpa using hs2 hcase

/-- Witness for the amended C3 at a concrete well-formed store. -/
theorem c3_witness :
    ∃ st1 ev, (Settings.init freshStorage).load = Except.ok (st1, ev) ∧
      (((Settings.init freshStorage).storage.getItemSettings = Slot.absent ∨
        (Settings.init freshStorage).storage.getItemSettings = Slot.emptyStr) →
        st1.settings = defaultSettings) :=
  c3_amended_load_total_on_wellformed (Settings.init freshStorage)
    (by decide) (by decide)

/-! ## C2: no default key ever goes missing

The public mutation surface of the manager is closed under an
invariant: the settings mapping, every profile, and every mapping
persisted in the store carry a value for every key of the built-in
default mapping. -/

/-- One call on the public mutation surface of the manager. -/
inductive Op where
  | load
  | save
  | resetAll
  | update (key : String) (value : SVal)
  | updateMany (updates : SettingsMap)
  | loadProfile (name : String)
  | saveProfile (name : String)
  | deleteProfile (name : String)
  deriving DecidableEq

/-- Dispatch one operation (return values of the profile operations are
dropped; only the state and the emissions matter here). -/
def Settings.step (st : Settings) : Op → Except Unit (Settings × List Ev)
  | Op.load => st.load
  | Op.save => Except.ok st.save
  | Op.resetAll => Except.ok st.resetAll
  | Op.update k v => Except.ok (st.updateSetting k v)
  | Op.updateMany us => Except.ok (st.updateSettings us)
  | Op.loadProfile n => Except.ok (st.loadProfile n)
  | Op.saveProfile n => Except.ok (st.saveProfile n).2
  | Op.deleteProfile n => Except.ok (st.deleteProfile n).2

/-- Run a sequence of operations, stopping at a thrown error. -/
def Settings.runOps (st : Settings) : List Op → Except Unit (Settings × List Ev)
  | [] => Except.ok (st, [])
  | op :: rest =>
    match st.step op with
    | Except.error e => Except.error e
    | Except.ok (st1, ev1) =>
      match st1.runOps rest with
      | Except.error e => Except.error e
      | Except.ok (st2, ev2) => Except.ok (st2, ev1 ++ ev2)

/-- Every key of the built-in default mapping has a value in `m`. -/
def fullyKeyed (m : SettingsMap) : Bool :=
  defaultSettings.all (fun p => (jsGet m p.1).isSome)

/-- Every profile in the mapping is fully keyed. -/
def profilesFull (p : ProfilesMap) : Bool :=
  p.all (fun pr => fullyKeyed pr.2)

/-- What may sit in the persisted settings cell from a reachable state:
nothing, or the serialization of a fully keyed mapping. -/
def slotSettingsOK : Slot SettingsMap → Prop
  | Slot.json m => fullyKeyed m = true
  | Slot.malformed => False
  | _ => True

/-- Likewise for the persisted profiles cell. -/
def slotProfilesOK : Slot ProfilesMap → Prop
  | Slot.json p => profilesFull p = true
  | Slot.malformed => False
  | _ => True

/-- The reachable-state invariant behind C2. -/
def Inv (st : Settings) : Prop :=
  fullyKeyed st.settings = true ∧ profilesFull st.profiles = true ∧
  slotSettingsOK st.storage.settingsCell ∧
  slotProfilesOK st.storage.profilesCell

theorem fullyKeyed_spec (m : SettingsMap) (h : fullyKeyed m = true)
    (k : String) (hk : (jsGet defaultSettings k).isSome) :
    (jsGet m k).isSome := by
  rw [jsGet_isSome_iff_mem_keys] at hk
  rcases List.mem_map.mp hk with ⟨p, hp, hpk⟩
  have h2 := List.all_eq_true.mp h p hp
  rw [hpk] at h2
  exact h2

theorem fullyKeyed_jsSet (m : SettingsMap) (k : String) (v : SVal)
    (h : fullyKeyed m = true) : fullyKeyed (jsSet m k v) = true := by
  rw [fullyKeyed, List.all_eq_true] at h ⊢
  intro p hp
  exact jsGet_isSome_jsSet _ _ _ _ (h p hp)

theorem fullyKeyed_jsAssign (us : List (String × SVal)) (m : SettingsMap)
    (h : fullyKeyed m = true) : fullyKeyed (jsAssign m us) = true := by
  induction us generalizing m with
  | nil => exact h
  | cons hd tl ih =>
    show fullyKeyed (jsAssign (jsSet m hd.1 hd.2) tl) = true
    exact ih _ (fullyKeyed_jsSet m hd.1 hd.2 h)

theorem fullyKeyed_defaults : fullyKeyed defaultSettings = true := by decide

theorem profilesFull_defaults : profilesFull getDefaultProfiles = true := by
  decide

theorem profilesFull_mem (p : ProfilesMap) (h : profilesFull p = true)
    (name : String) (m : SettingsMap) (hm : jsGet p name = some m) :
    fullyKeyed m = true :=
  List.all_eq_true.mp h (name, m) (jsGet_mem p name m hm)

theorem profilesFull_jsSet (p : ProfilesMap) (name : String) (m : SettingsMap)
    (hp : profilesFull p = true) (hm : fullyKeyed m = true) :
    profilesFull (jsSet p name m) = true := by
  rw [profilesFull, List.all_eq_true] at hp ⊢
  intro pr hpr
  rcases mem_jsSet p name m pr hpr with h | h
  · rw [h]; exact hm
  · exact hp pr h

theorem profilesFull_jsDelete (p : ProfilesMap) (name : String)
    (hp : profilesFull p = true) : profilesFull (jsDelete p name) = true := by
  rw [profilesFull, List.all_eq_true] at hp ⊢
  intro pr hpr
  exact hp pr (mem_of_mem_jsDelete p name pr hpr)

theorem setItemSettings_inv (s : Storage) (m : SettingsMap)
    (hm : fullyKeyed m = true)
    (hs : slotSettingsOK s.settingsCell) (hp : slotProfilesOK s.profilesCell) :
    slotSettingsOK (s.setItemSettings m).2.settingsCell ∧
    slotProfilesOK (s.setItemSettings m).2.profilesCell := by
  unfold Storage.setItemSettings
  split_ifs <;> simp_all [slotSettingsOK]

theorem setItemProfiles_inv (s : Storage) (p : ProfilesMap)
    (hpv : profilesFull p = true)
    (hs : slotSettingsOK s.settingsCell) (hp : slotProfilesOK s.profilesCell) :
    slotSettingsOK (s.setItemProfiles p).2.settingsCell ∧
    slotProfilesOK (s.setItemProfiles p).2.profilesCell := by
  unfold Storage.setItemProfiles
  split_ifs <;> simp_all [slotProfilesOK]

theorem save_inv (st : Settings) (h : Inv st) : Inv st.save.1 := by
  obtain ⟨h1, h2, h3, h4⟩ := h
  obtain ⟨h5, h6⟩ := setItemSettings_inv st.storage st.settings h1 h3 h4
  exact ⟨h1, h2, h5, h6⟩

theorem getItemSettings_ok (s : Storage) (h : slotSettingsOK s.settingsCell) :
    slotSettingsOK s.getItemSettings := by
  unfold Storage.getItemSettings
  split_ifs <;> simp_all [slotSettingsOK]

theorem getItemProfiles_ok (s : Storage) (h : slotProfilesOK s.profilesCell) :
    slotProfilesOK s.getItemProfiles := by
  unfold Storage.getItemProfiles
  split_ifs <;> simp_all [slotProfilesOK]

theorem parseOrDefault_settings_full (slot : Slot SettingsMap)
    (hok : slotSettingsOK slot) (v : SettingsMap)
    (h : parseOrDefault slot defaultSettings = Except.ok v) :
    fullyKeyed v = true := by
  cases slot with
  | absent => cases h; exact fullyKeyed_defaults
  | emptyStr => cases h; exact fullyKeyed_defaults
  | json m => cases h; exact hok
  | malformed => cases h

theorem parseOrDefault_profiles_full (slot : Slot ProfilesMap)
    (hok : slotProfilesOK slot) (v : ProfilesMap)
    (h : parseOrDefault slot getDefaultProfiles = Except.ok v) :
    profilesFull v = true := by
  cases slot with
  | absent => cases h; exact profilesFull_defaults
  | emptyStr => cases h; exact profilesFull_defaults
  | json m => cases h; exact hok
  | malformed => cases h

theorem load_inv (st : Settings) (hinv : Inv st) (st1 : Settings)
    (ev : List Ev) (h : st.load = Except.ok (st1, ev)) : Inv st1 := by
  obtain ⟨h1, h2, h3, h4⟩ := hinv
  unfold Settings.load at h
  cases hps : parseOrDefault st.storage.getItemSettings defaultSettings with
  | error e => rw [hps] at h; cases h
  | ok s =>
    rw [hps] at h
    cases hpp : parseOrDefault st.storage.getItemProfiles getDefaultProfiles with
    | error e => rw [hpp] at h; cases h
    | ok p =>
      rw [hpp] at h
      cases h
      refine ⟨?_, ?_, h3, h4⟩
      · exact parseOrDefault_settings_full _ (getItemSettings_ok _ h3) s hps
      · exact parseOrDefault_profiles_full _ (getItemProfiles_ok _ h4) p hpp

theorem loadProfile_inv (st : Settings) (n : String) (h : Inv st) :
    Inv (st.loadProfile n).1 := by
  obtain ⟨h1, h2, h3, h4⟩ := h
  unfold Settings.loadProfile
  cases hg : jsGet st.profiles n with
  | some prof =>
    exact save_inv { st with settings := prof }
      ⟨profilesFull_mem _ h2 n prof hg, h2, h3, h4⟩
  | none =>
    exact ⟨h1, h2, h3, h4⟩

theorem saveProfile_inv (st : Settings) (n : String) (h : Inv st) :
    Inv (st.saveProfile n).2.1 := by
  obtain ⟨h1, h2, h3, h4⟩ := h
  unfold Settings.saveProfile
  by_cases hn : n = "default"
  · rw [if_pos hn]
    exact ⟨h1, h2, h3, h4⟩
  · rw [if_neg hn]
    have hfull := profilesFull_jsSet st.profiles n st.settings h2 h1
    obtain ⟨h5, h6⟩ := setItemProfiles_inv st.storage _ hfull h3 h4
    exact ⟨h1, hfull, h5, h6⟩

theorem deleteProfile_inv (st : Settings) (n : String) (h : Inv st) :
    Inv (st.deleteProfile n).2.1 := by
  obtain ⟨h1, h2, h3, h4⟩ := h
  unfold Settings.deleteProfile
  by_cases hn : n ∈ builtInProfiles
  · rw [if_pos hn]
    exact ⟨h1, h2, h3, h4⟩
  · rw [if_neg hn]
    cases hg : jsGet st.profiles n with
    | some prof =>
      have hfull := profilesFull_jsDelete st.profiles n h2
      obtain ⟨h5, h6⟩ := setItemProfiles_inv st.storage _ hfull h3 h4
      exact ⟨h1, hfull, h5, h6⟩
    | none =>
      exact ⟨h1, h2, h3, h4⟩

theorem step_inv (st : Settings) (op : Op) (st1 : Settings) (ev : List Ev)
    (hinv : Inv st) (h : st.step op = Except.ok (st1, ev)) : Inv st1 := by
  obtain ⟨h1, h2, h3, h4⟩ := hinv
  cases op with
  | load => exact load_inv st ⟨h1, h2, h3, h4⟩ st1 ev h
  | save =>
    cases h
    exact save_inv st ⟨h1, h2, h3, h4⟩
  | resetAll =>
    cases h
    exact save_inv { st with settings := defaultSettings }
      ⟨fullyKeyed_defaults, h2, h3, h4⟩
  | update k v =>
    cases h
    exact save_inv { st with settings := jsSet st.settings k v }
      ⟨fullyKeyed_jsSet _ _ _ h1, h2, h3, h4⟩
  | updateMany us =>
    cases h
    exact save_inv { st with settings := jsAssign st.settings us }
      ⟨fullyKeyed_jsAssign _ _ h1, h2, h3, h4⟩
  | loadProfile n =>
    replace h : Except.ok (st.loadProfile n) = Except.ok (st1, ev) := h
    injection h with h5
    have hst : (st.loadProfile n).1 = st1 := by rw [h5]
    rw [← hst]
    exact loadProfile_inv st n ⟨h1, h2, h3, h4⟩
  | saveProfile n =>
    replace h : Except.ok (st.saveProfile n).2 = Except.ok (st1, ev) := h
    injection h with h5
    have hst : (st.saveProfile n).2.1 = st1 := by rw [h5]
    rw [← hst]
    exact saveProfile_inv st n ⟨h1, h2, h3, h4⟩
  | deleteProfile n =>
    replace h : Except.ok (st.deleteProfile n).2 = Except.ok (st1, ev) := h
    injection h with h5
    have hst : (st.deleteProfile n).2.1 = st1 := by rw [h5]
    rw [← hst]
    exact deleteProfile_inv st n ⟨h1, h2, h3, h4⟩

theorem runOps_inv (ops : List Op) (st st1 : Settings) (ev : List Ev)
    (hinv : Inv st) (h : st.runOps ops = Except.ok (st1, ev)) : Inv st1 := by
  induction ops generalizing st ev with
  | nil =>
    unfold Settings.runOps at h
    cases h
    exact hinv
  | cons op rest ih =>
    unfold Settings.runOps at h
    split at h
    · cases h
    next st2 ev2 hs =>
      split at h
      · cases h
      next st3 ev3 hr =>
        injection h with h1
        injection h1 with h2 h3
        subst h2
        exact ih st2 ev3 (step_inv st op st2 ev2 hinv hs) hr

/-- C2: starting from a freshly constructed manager over a store with
nothing persisted (any availability and autoSave flags), after `load()`
followed by any sequence of public operations — including further
`load()` calls that re-read data persisted by earlier operations in the
sequence — every key of the built-in default mapping has a value in the
current settings mapping. -/
theorem c2_no_missing_default_keys (available auto readF writeF : Bool)
    (ops : List Op) (st1 : Settings) (ev : List Ev) (k : String)
    (hk : (jsGet defaultSettings k).isSome)
    (hrun : (Settings.init
        { isAvailable := available, autoSave := auto, readFails := readF,
          writeFails := writeF, settingsCell := Slot.absent,
          profilesCell := Slot.absent }).runOps (Op.load :: ops)
        = Except.ok (st1, ev)) :
    (jsGet st1.settings k).isSome := by
  set sto : Storage :=
    { isAvailable := available, autoSave := auto, readFails := readF,
      writeFails := writeF, settingsCell := Slot.absent,
      profilesCell := Slot.absent } with hsto
  have hgs : sto.getItemSettings = Slot.absent := by
    unfold Storage.getItemSettings
    split_ifs <;> rfl
  have hgp : sto.getItemProfiles = Slot.absent := by
    unfold Storage.getItemProfiles
    split_ifs <;> rfl
  have hload : (Settings.init sto).load = Except.ok
      ({ storage := sto, settings := defaultSettings,
         profiles := getDefaultProfiles }, [Ev.loaded defaultSettings]) := by
    unfold Settings.load
    show (match parseOrDefault sto.getItemSettings defaultSettings with
      | Except.error e => Except.error e
      | Except.ok s =>
        match parseOrDefault sto.getItemProfiles getDefaultProfiles with
        | Except.error e => Except.error e
        | Except.ok p =>
          Except.ok ({ Settings.init sto with settings := s, profiles := p },
            [Ev.loaded s])) = _
    rw [hgs, hgp]
    rfl
  have hstep : (Settings.init sto).step Op.load = Except.ok
      ({ storage := sto, settings := defaultSettings,
         profiles := getDefaultProfiles }, [Ev.loaded defaultSettings]) := hload
  set stA : Settings :=
    { storage := sto, settings := defaultSettings,
      profiles := getDefaultProfiles } with hstA
  have hinvA : Inv stA :=
    ⟨fullyKeyed_defaults, profilesFull_defaults, trivial, trivial⟩
  unfold Settings.runOps at hrun
  split at hrun
  next e heq =>
    rw [hstep] at heq
    cases heq
  next stm evm heq =>
    rw [hstep] at heq
    injection heq with heq1
    injection heq1 with heq2 heq3
    subst heq2
    split at hrun
    · cases hrun
    next st2 ev2 hr =>
      injection hrun with h1
      injection h1 with h2 h3
      subst h2
      exact fullyKeyed_spec st2.settings
        (runOps_inv ops stA st2 ev2 hinvA hr).1 k hk

/-- Witness for C2: the empty continuation sequence on a working store;
the mapping after the initial load carries the `fontSize` key. -/
theorem c2_witness :
    (jsGet egSettings.settings "fontSize").isSome :=
  c2_no_missing_default_keys true true false false [] egSettings
    [Ev.loaded defaultSettings] "fontSize" (by rfl) (by rfl)

/-! ## Event bus (`src/core/events.js`, class `EventBus`)

`this.listeners` is a Map from event name to a Set of callback
functions.  Callbacks are identified by numeric ids; an environment maps
each id to what the function does when invoked.  The modelled callback
behaviors are: return normally, throw, or synchronously re-emit a
channel — enough to express the subscriber-isolation and once-semantics
claims.  No modelled behavior adds subscriptions, so JS Set live
iteration (elements deleted before being visited are skipped) is
captured by walking a snapshot and re-checking membership against the
current bus before each dispatch. -/

/-- What a subscribed callback does when invoked. -/
inductive Beh where
  | ok
  | err
  | reemit (chan : String)
  deriving DecidableEq

/-- A callback: either a plain function, or the wrapper closure created
by `once(home, cb)`, which first calls its captured unsubscribe function
(for channel `home`), then runs the wrapped callback. -/
inductive HSpec where
  | plain (b : Beh)
  | onceWrap (home : String) (b : Beh)
  deriving DecidableEq

/-- The callback table, mapping function ids to their code. -/
abbrev Env := Nat → HSpec

/-- `this.listeners`: event name to Set of callback ids (a Set has no
duplicates and keeps insertion order). -/
structure Bus where
  listeners : List (String × List Nat)
  deriving DecidableEq

/-- `this.listeners.get(event)` as a list (empty when the key is
absent). -/
def Bus.getHandlers (bus : Bus) (chan : String) : List Nat :=
  (jsGet bus.listeners chan).getD []

/-- `on(event, callback)`: create the channel Set if needed, then
`Set.add` the callback (a no-op when already present). -/
def Bus.on (bus : Bus) (chan : String) (hid : Nat) : Bus :=
  match jsGet bus.listeners chan with
  | none => ⟨jsSet bus.listeners chan [hid]⟩
  | some hs => ⟨jsSet bus.listeners chan (if hid ∈ hs then hs else hs ++ [hid])⟩

/-- The unsubscribe closure returned by `on`: `handlers.delete(cb)` and
drop the channel entry when its Set becomes empty. -/
def Bus.unsub (bus : Bus) (chan : String) (hid : Nat) : Bus :=
  match jsGet bus.listeners chan with
  | none => bus
  | some hs =>
    if hs.filter (fun x => x ≠ hid) = [] then ⟨jsDelete bus.listeners chan⟩
    else ⟨jsSet bus.listeners chan (hs.filter (fun x => x ≠ hid))⟩

/-- `once(event, callback)` registers a fresh wrapper function via
`on`; the wrapper id is bound to `HSpec.onceWrap event cb` in the
callback table. -/
def Bus.once (bus : Bus) (chan : String) (wrapperId : Nat) : Bus :=
  bus.on chan wrapperId

/-- One pending interpreter activity: `emit` a channel, walk a snapshot
of a channel Set, invoke one callback, or run a callback body. -/
inductive Job where
  | emitJob (chan : String)
  | listJob (chan : String) (pending : List Nat)
  | handlerJob (hid : Nat)
  | behJob (b : Beh)

/-- Sequencing of two bus computations, concatenating their traces. -/
def seqRun (r : Bus × List Nat) (f : Bus → Bus × List Nat) :
    Bus × List Nat :=
  ((f r.1).1, r.2 ++ (f r.1).2)

/-- Record one callback invocation in front of a trace. -/
def consRun (hid : Nat) (r : Bus × List Nat) : Bus × List Nat :=
  (r.1, hid :: r.2)

/-- Fuel-indexed interpreter for `emit`.  The trace lists the invoked
callback ids in order.  A callback that throws is caught by the
try/catch inside `emit` (its dispatch reaches the same state as the
catch arm: the error is only logged), so the walk always continues and
`emit` always returns.  Fuel is consumed one unit per activity, so it
only runs out on deeply nested re-entrant emits; the theorems below
either supply enough fuel or prove fuel-independent bounds. -/
def exec (env : Env) : Nat → Job → Bus → Bus × List Nat
  | 0, _, bus => (bus, [])
  | fuel + 1, Job.emitJob chan, bus =>
    seqRun (exec env fuel (Job.listJob chan (bus.getHandlers chan)) bus)
      (fun bus1 => exec env fuel (Job.listJob "*" (bus1.getHandlers "*")) bus1)
  | fuel + 1, Job.listJob chan pending, bus =>
    match pending with
    | [] => (bus, [])
    | hid :: rest =>
      if hid ∈ bus.getHandlers chan then
        seqRun (exec env fuel (Job.handlerJob hid) bus)
          (fun bus1 => exec env fuel (Job.listJob chan rest) bus1)
      else exec env fuel (Job.listJob chan rest) bus
  | fuel + 1, Job.handlerJob hid, bus =>
    match env hid with
    | HSpec.plain b => consRun hid (exec env fuel (Job.behJob b) bus)
    | HSpec.onceWrap home b =>
      consRun hid (exec env fuel (Job.behJob b) (bus.unsub home hid))
  | fuel + 1, Job.behJob b, bus =>
    match b with
    | Beh.ok => (bus, [])
    | Beh.err => (bus, [])
    | Beh.reemit chan => exec env fuel (Job.emitJob chan) bus

/-- A chain of top-level `emit` calls. -/
def emitSeq (env : Env) (fuel : Nat) (bus : Bus) : List String → Bus × List Nat
  | [] => (bus, [])
  | chan :: rest =>
    seqRun (exec env fuel (Job.emitJob chan) bus)
      (fun bus1 => emitSeq env fuel bus1 rest)

/-! ### Supporting lemmas about the listener structure -/

/-- Total number of subscriptions of `hid` across every channel Set. -/
def totalCount (bus : Bus) (hid : Nat) : Nat :=
  (bus.listeners.map (fun p => p.2.count hid)).sum

/-- `hid` occurs in no channel Set other than that of `home`. -/
def onlyIn (bus : Bus) (home : String) (hid : Nat) : Prop :=
  ∀ p ∈ bus.listeners, p.1 ≠ home → hid ∉ p.2

/-- Channel keys are pairwise distinct (`this.listeners` is a Map). -/
def keysNodup (bus : Bus) : Prop :=
  (bus.listeners.map Prod.fst).Nodup

theorem jsDelete_sublist {α : Type} (m : List (String × α)) (k : String) :
    List.Sublist (jsDelete m k) m := by
  induction m with
  | nil => simp [jsDelete]
  | cons hd tl ih =>
    obtain ⟨k0, v0⟩ := hd
    by_cases h0 : k0 = k
    · simp only [jsDelete, if_pos h0]
      exact List.Sublist.cons _ ih
    · simp only [jsDelete, if_neg h0]
      exact List.Sublist.cons₂ _ ih

theorem mem_jsDelete_ne {α : Type} (m : List (String × α)) (k : String)
    (p : String × α) : p ∈ jsDelete m k → p.1 ≠ k := by
  induction m with
  | nil => intro h; simp [jsDelete] at h
  | cons hd tl ih =>
    obtain ⟨k0, v0⟩ := hd
    intro h
    by_cases h0 : k0 = k
    · simp only [jsDelete, if_pos h0] at h
      exact ih h
    · simp only [jsDelete, if_neg h0, List.mem_cons] at h
      rcases h with h | h
      · rw [h]; exact h0
      · exact ih h

theorem map_fst_jsSet_present {α : Type} (m : List (String × α)) (k : String)
    (v hs : α) (hget : jsGet m k = some hs) :
    (jsSet m k v).map Prod.fst = m.map Prod.fst := by
  induction m with
  | nil => cases hget
  | cons hd tl ih =>
    obtain ⟨k0, v0⟩ := hd
    by_cases h0 : k0 = k
    · simp [jsSet, h0]
    · simp only [jsGet, if_neg h0] at hget
      simp [jsSet, h0, ih hget]

theorem map_fst_jsSet_absent {α : Type} (m : List (String × α)) (k : String)
    (v : α) (hget : jsGet m k = none) :
    (jsSet m k v).map Prod.fst = m.map Prod.fst ++ [k] := by
  induction m with
  | nil => simp [jsSet]
  | cons hd tl ih =>
    obtain ⟨k0, v0⟩ := hd
    by_cases h0 : k0 = k
    · simp [jsGet, h0] at hget
    · simp only [jsGet, if_neg h0] at hget
      simp [jsSet, h0, ih hget]

theorem mem_jsSet_nodup {α : Type} (m : List (String × α)) (k : String)
    (v : α) (p : String × α) (hnd : (m.map Prod.fst).Nodup) :
    p ∈ jsSet m k v → p = (k, v) ∨ (p ∈ m ∧ p.1 ≠ k) := by
  induction m with
  | nil => intro h; simp [jsSet] at h; exact Or.inl (by simp [h])
  | cons hd tl ih =>
    obtain ⟨k0, v0⟩ := hd
    simp only [List.map, List.nodup_cons] at hnd
    intro h
    by_cases h0 : k0 = k
    · subst h0
      simp [jsSet] at h
      rcases h with h | h
      · exact Or.inl (by simp [h])
      · refine Or.inr ⟨List.mem_cons_of_mem _ h, ?_⟩
        intro hpk
        exact hnd.1 (hpk ▸ (List.mem_map_of_mem Prod.fst h))
    · simp only [jsSet, if_neg h0, List.mem_cons] at h
      rcases h with h | h
      · refine Or.inr ⟨List.mem_cons.mpr (Or.inl h), ?_⟩
        rw [h]; exact h0
      · rcases ih hnd.2 h with h1 | ⟨h1, h2⟩
        · exact Or.inl h1
        · exact Or.inr ⟨List.mem_cons_of_mem _ h1, h2⟩

theorem unsub_eq_none (bus : Bus) (chan : String) (hid : Nat)
    (hg : jsGet bus.listeners chan = none) : bus.unsub chan hid = bus := by
  unfold Bus.unsub
  rw [hg]

theorem unsub_eq_del (bus : Bus) (chan : String) (hid : Nat) (hs : List Nat)
    (hg : jsGet bus.listeners chan = some hs)
    (hnil : hs.filter (fun x => x ≠ hid) = []) :
    bus.unsub chan hid = ⟨jsDelete bus.listeners chan⟩ := by
  unfold Bus.unsub
  rw [hg]
  exact if_pos hnil

theorem unsub_eq_set (bus : Bus) (chan : String) (hid : Nat) (hs : List Nat)
    (hg : jsGet bus.listeners chan = some hs)
    (hnil : ¬ hs.filter (fun x => x ≠ hid) = []) :
    bus.unsub chan hid
      = ⟨jsSet bus.listeners chan (hs.filter (fun x => x ≠ hid))⟩ := by
  unfold Bus.unsub
  rw [hg]
  exact if_neg hnil

theorem totalCount_eq_zero (bus : Bus) (hid : Nat)
    (h : ∀ p ∈ bus.listeners, hid ∉ p.2) : totalCount bus hid = 0 := by
  unfold totalCount
  apply List.sum_eq_zero
  intro x hx
  rcases List.mem_map.mp hx with ⟨p, hp, hpx⟩
  rw [← hpx]
  exact List.count_eq_zero.mpr (h p hp)

theorem tc_jsSet_le_entry (m : List (String × List Nat)) (k : String)
    (v hs : List Nat) (wid : Nat) (hget : jsGet m k = some hs)
    (hc : v.count wid ≤ hs.count wid) :
    ((jsSet m k v).map (fun p => p.2.count wid)).sum
      ≤ (m.map (fun p => p.2.count wid)).sum := by
  induction m with
  | nil => cases hget
  | cons hd tl ih =>
    obtain ⟨k0, v0⟩ := hd
    by_cases h0 : k0 = k
    · subst h0
      simp [jsGet] at hget
      subst hget
      simp [jsSet]
      omega
    · have hg2 : jsGet tl k = some hs := by simpa [jsGet, h0] using hget
      have := ih hg2
      simp [jsSet, h0]
      omega

theorem tc_jsDelete_le (m : List (String × List Nat)) (k : String)
    (wid : Nat) :
    ((jsDelete m k).map (fun p => p.2.count wid)).sum
      ≤ (m.map (fun p => p.2.count wid)).sum := by
  induction m with
  | nil => simp [jsDelete]
  | cons hd tl ih =>
    obtain ⟨k0, v0⟩ := hd
    by_cases h0 : k0 = k
    · simp only [jsDelete, if_pos h0, List.map, List.sum_cons]
      omega
    · simp only [jsDelete, if_neg h0, List.map, List.sum_cons]
      omega

theorem tc_jsSet_le_add (m : List (String × List Nat)) (k : String)
    (v : List Nat) (wid : Nat) :
    ((jsSet m k v).map (fun p => p.2.count wid)).sum
      ≤ v.count wid + (m.map (fun p => p.2.count wid)).sum := by
  induction m with
  | nil => simp [jsSet]
  | cons hd tl ih =>
    obtain ⟨k0, v0⟩ := hd
    by_cases h0 : k0 = k
    · simp [jsSet, h0]
    · simp only [jsSet, if_neg h0, List.map, List.sum_cons]
      omega

theorem tc_unsub_le (bus : Bus) (chan : String) (hid0 wid : Nat) :
    totalCount (bus.unsub chan hid0) wid ≤ totalCount bus wid := by
  cases hg : jsGet bus.listeners chan with
  | none =>
    rw [unsub_eq_none bus chan hid0 hg]
  | some hs =>
    by_cases hnil : hs.filter (fun x => x ≠ hid0) = []
    · rw [unsub_eq_del bus chan hid0 hs hg hnil]
      exact tc_jsDelete_le bus.listeners chan wid
    · rw [unsub_eq_set bus chan hid0 hs hg hnil]
      exact tc_jsSet_le_entry bus.listeners chan _ hs wid hg
        ((hs.filter_sublist).count_le wid)

theorem unsub_self_zero (bus : Bus) (home : String) (wid : Nat)
    (h1 : keysNodup bus) (h2 : onlyIn bus home wid) :
    totalCount (bus.unsub home wid) wid = 0 := by
  cases hg : jsGet bus.listeners home with
  | none =>
    rw [unsub_eq_none bus home wid hg]
    apply totalCount_eq_zero
    intro p hp
    by_cases hph : p.1 = home
    · exfalso
      have hsome : (jsGet bus.listeners home).isSome := by
        rw [jsGet_isSome_iff_mem_keys]
        exact hph ▸ List.mem_map_of_mem Prod.fst hp
      rw [hg] at hsome
      simp at hsome
    · exact h2 p hp hph
  | some hs =>
    by_cases hnil : hs.filter (fun x => x ≠ wid) = []
    · rw [unsub_eq_del bus home wid hs hg hnil]
      apply totalCount_eq_zero
      intro p hp
      exact h2 p (mem_of_mem_jsDelete _ _ _ hp) (mem_jsDelete_ne _ _ _ hp)
    · rw [unsub_eq_set bus home wid hs hg hnil]
      apply totalCount_eq_zero
      intro p hp
      rcases mem_jsSet_nodup _ _ _ _ h1 hp with hc | ⟨hpm, hpk⟩
      · rw [hc]
        intro hwin
        have hbad := (List.mem_filter.mp hwin).2
        simp at hbad
      · exact h2 p hpm hpk

theorem keysNodup_unsub (bus : Bus) (chan : String) (hid0 : Nat)
    (h : keysNodup bus) : keysNodup (bus.unsub chan hid0) := by
  cases hg : jsGet bus.listeners chan with
  | none => rw [unsub_eq_none bus chan hid0 hg]; exact h
  | some hs =>
    by_cases hnil : hs.filter (fun x => x ≠ hid0) = []
    · rw [unsub_eq_del bus chan hid0 hs hg hnil]
      exact h.sublist ((jsDelete_sublist bus.listeners chan).map Prod.fst)
    · rw [unsub_eq_set bus chan hid0 hs hg hnil]
      unfold keysNodup
      show ((jsSet bus.listeners chan _).map Prod.fst).Nodup
      rw [map_fst_jsSet_present bus.listeners chan _ hs hg]
      exact h

theorem onlyIn_unsub (bus : Bus) (chan : String) (hid0 : Nat) (home : String)
    (wid : Nat) (h : onlyIn bus home wid) :
    onlyIn (bus.unsub chan hid0) home wid := by
  cases hg : jsGet bus.listeners chan with
  | none => rw [unsub_eq_none bus chan hid0 hg]; exact h
  | some hs =>
    by_cases hnil : hs.filter (fun x => x ≠ hid0) = []
    · rw [unsub_eq_del bus chan hid0 hs hg hnil]
      intro p hp hpk
      exact h p (mem_of_mem_jsDelete _ _ _ hp) hpk
    · rw [unsub_eq_set bus chan hid0 hs hg hnil]
      intro p hp hpk
      rcases mem_jsSet _ _ _ p hp with hc | hc
      · rw [hc] at hpk ⊢
        have hnw : wid ∉ hs := h (chan, hs) (jsGet_mem _ _ _ hg) hpk
        intro hwin
        exact hnw (List.mem_of_mem_filter hwin)
      · exact h p hc hpk

theorem on_eq_new (bus : Bus) (chan : String) (hid : Nat)
    (hg : jsGet bus.listeners chan = none) :
    bus.on chan hid = ⟨jsSet bus.listeners chan [hid]⟩ := by
  unfold Bus.on
  rw [hg]

theorem on_eq_add (bus : Bus) (chan : String) (hid : Nat) (hs : List Nat)
    (hg : jsGet bus.listeners chan = some hs) :
    bus.on chan hid
      = ⟨jsSet bus.listeners chan (if hid ∈ hs then hs else hs ++ [hid])⟩ := by
  unfold Bus.on
  rw [hg]

theorem keysNodup_on (bus : Bus) (chan : String) (hid : Nat)
    (h : keysNodup bus) : keysNodup (bus.on chan hid) := by
  cases hg : jsGet bus.listeners chan with
  | none =>
    rw [on_eq_new bus chan hid hg]
    show ((jsSet bus.listeners chan [hid]).map Prod.fst).Nodup
    rw [map_fst_jsSet_absent bus.listeners chan _ hg]
    rw [List.nodup_append]
    refine ⟨h, List.nodup_singleton _, ?_⟩
    intro a ha hb
    simp at hb
    rw [hb] at ha
    have hsome : (jsGet bus.listeners chan).isSome :=
      (jsGet_isSome_iff_mem_keys _ _).mpr ha
    rw [hg] at hsome
    simp at hsome
  | some hs =>
    rw [on_eq_add bus chan hid hs hg]
    show ((jsSet bus.listeners chan _).map Prod.fst).Nodup
    rw [map_fst_jsSet_present bus.listeners chan _ hs hg]
    exact h

theorem onlyIn_on_fresh (bus : Bus) (home : String) (wid : Nat)
    (hfresh : ∀ p ∈ bus.listeners, wid ∉ p.2) :
    onlyIn (bus.on home wid) home wid := by
  cases hg : jsGet bus.listeners home with
  | none =>
    rw [on_eq_new bus home wid hg]
    intro p hp hpk
    rcases mem_jsSet _ _ _ _ hp with hc | hc
    · rw [hc] at hpk
      exact absurd rfl hpk
    · exact hfresh p hc
  | some hs =>
    rw [on_eq_add bus home wid hs hg]
    intro p hp hpk
    rcases mem_jsSet _ _ _ _ hp with hc | hc
    · rw [hc] at hpk
      exact absurd rfl hpk
    · exact hfresh p hc

theorem tc_on_fresh_le_one (bus : Bus) (home : String) (wid : Nat)
    (hfresh : ∀ p ∈ bus.listeners, wid ∉ p.2) :
    totalCount (bus.on home wid) wid ≤ 1 := by
  have hz : totalCount bus wid = 0 := totalCount_eq_zero bus wid hfresh
  unfold totalCount at hz
  cases hg : jsGet bus.listeners home with
  | none =>
    rw [on_eq_new bus home wid hg]
    show ((jsSet bus.listeners home [wid]).map (fun p => p.2.count wid)).sum ≤ 1
    have hle := tc_jsSet_le_add bus.listeners home [wid] wid
    have hone : ([wid] : List Nat).count wid = 1 := by simp
    omega
  | some hs =>
    have hw : wid ∉ hs := by
      intro hin
      exact hfresh (home, hs) (jsGet_mem _ _ _ hg) hin
    rw [on_eq_add bus home wid hs hg, if_neg hw]
    show ((jsSet bus.listeners home (hs ++ [wid])).map
      (fun p => p.2.count wid)).sum ≤ 1
    have hle := tc_jsSet_le_add bus.listeners home (hs ++ [wid]) wid
    have hone : (hs ++ [wid]).count wid = 1 := by
      rw [List.count_append]
      simp [List.count_eq_zero.mpr hw]
    omega

theorem mem_getHandlers_tc_pos (bus : Bus) (chan : String) (wid : Nat)
    (h : wid ∈ bus.getHandlers chan) : 1 ≤ totalCount bus wid := by
  unfold Bus.getHandlers at h
  cases hg : jsGet bus.listeners chan with
  | none => rw [hg] at h; simp at h
  | some hs =>
    rw [hg] at h
    simp at h
    have hcnt : 1 ≤ hs.count wid := by
      by_cases h0 : hs.count wid = 0
      · exact absurd h (List.count_eq_zero.mp h0)
      · omega
    have hmem : hs.count wid ∈ bus.listeners.map (fun p => p.2.count wid) :=
      List.mem_map_of_mem _ (jsGet_mem bus.listeners chan hs hg)
    have hsum := List.single_le_sum
      (fun x hx => Nat.zero_le x) (hs.count wid) hmem
    unfold totalCount
    omega

/-! ### The once-wrapper fires at most once (C8 machinery)

The invariant: the number of subscriptions of the wrapper plus the
number of times its callback already ran never grows.  A bare handler
activity dispatched without a subscription check gets one unit of
slack; inside `emit` the dispatch is guarded by the live membership
test, which makes the slack vanish. -/

/-- Slack allowed to a bare handler activity for wrapper `wid`. -/
def slack (wid : Nat) : Job → Bus → Nat
  | Job.handlerJob hid, bus =>
    if hid = wid ∧ totalCount bus wid = 0 then 1 else 0
  | _, _ => 0

theorem exec_once_main (env : Env) (home : String) (wid : Nat) (b : Beh)
    (hw : env wid = HSpec.onceWrap home b) (fuel : Nat) :
    ∀ job bus, keysNodup bus → onlyIn bus home wid →
      keysNodup (exec env fuel job bus).1 ∧
      onlyIn (exec env fuel job bus).1 home wid ∧
      totalCount (exec env fuel job bus).1 wid
          + ((exec env fuel job bus).2.count wid)
        ≤ totalCount bus wid + slack wid job bus := by
  induction fuel with
  | zero =>
    intro job bus h1 h2
    refine ⟨h1, h2, ?_⟩
    show totalCount bus wid + (List.count wid []) ≤ _
    simp only [List.count_nil]
    omega
  | succ n ih =>
    intro job bus h1 h2
    cases job with
    | emitJob chan =>
      obtain ⟨k1, o1, t1⟩ := ih (Job.listJob chan (bus.getHandlers chan)) bus h1 h2
      obtain ⟨k2, o2, t2⟩ := ih
        (Job.listJob "*"
          ((exec env n (Job.listJob chan (bus.getHandlers chan)) bus).1.getHandlers "*"))
        (exec env n (Job.listJob chan (bus.getHandlers chan)) bus).1 k1 o1
      have hexec : exec env (n + 1) (Job.emitJob chan) bus
          = seqRun (exec env n (Job.listJob chan (bus.getHandlers chan)) bus)
              (fun bus1 => exec env n (Job.listJob "*" (bus1.getHandlers "*")) bus1) := by
        simp [exec]
      rw [hexec]
      refine ⟨k2, o2, ?_⟩
      simp only [seqRun, List.count_append, slack] at t1 t2 ⊢
      omega
    | listJob chan pending =>
      cases pending with
      | nil =>
        have hexec : exec env (n + 1) (Job.listJob chan []) bus = (bus, []) := by
          simp [exec]
        rw [hexec]
        refine ⟨h1, h2, ?_⟩
        simp only [List.count_nil, slack]
        omega
      | cons hid rest =>
        by_cases hmem : hid ∈ bus.getHandlers chan
        · obtain ⟨k1, o1, t1⟩ := ih (Job.handlerJob hid) bus h1 h2
          obtain ⟨k2, o2, t2⟩ := ih (Job.listJob chan rest)
            (exec env n (Job.handlerJob hid) bus).1 k1 o1
          have hslack : slack wid (Job.handlerJob hid) bus = 0 := by
            unfold slack
            apply if_neg
            rintro ⟨hww, hzz⟩
            subst hww
            have hpos := mem_getHandlers_tc_pos bus chan hid hmem
            omega
          have hexec : exec env (n + 1) (Job.listJob chan (hid :: rest)) bus
              = seqRun (exec env n (Job.handlerJob hid) bus)
                  (fun bus1 => exec env n (Job.listJob chan rest) bus1) := by
            simp [exec, hmem]
          rw [hexec]
          refine ⟨k2, o2, ?_⟩
          rw [hslack] at t1
          simp only [seqRun, List.count_append, slack] at t1 t2 ⊢
          omega
        · obtain ⟨k1, o1, t1⟩ := ih (Job.listJob chan rest) bus h1 h2
          have hexec : exec env (n + 1) (Job.listJob chan (hid :: rest)) bus
              = exec env n (Job.listJob chan rest) bus := by
            simp [exec, hmem]
          rw [hexec]
          refine ⟨k1, o1, ?_⟩
          simp only [slack] at t1 ⊢
          omega
    | handlerJob hid =>
      cases henv : env hid with
      | plain b0 =>
        have hne : hid ≠ wid := by
          intro hh
          rw [hh, hw] at henv
          cases henv
        obtain ⟨k1, o1, t1⟩ := ih (Job.behJob b0) bus h1 h2
        have hexec : exec env (n + 1) (Job.handlerJob hid) bus
            = consRun hid (exec env n (Job.behJob b0) bus) := by
          simp [exec, henv]
        rw [hexec]
        refine ⟨k1, o1, ?_⟩
        simp only [consRun]
        rw [List.count_cons_of_ne (Ne.symm hne)]
        simp only [slack] at t1
        have hnn : (0 : Nat) ≤ slack wid (Job.handlerJob hid) bus := Nat.zero_le _
        omega
      | onceWrap home0 b0 =>
        by_cases hww : hid = wid
        · subst hww
          rw [hw] at henv
          injection henv with hh1 hh2
          subst hh1
          subst hh2
          have hk1 := keysNodup_unsub bus home hid h1
          have ho1 := onlyIn_unsub bus home hid home hid h2
          have hz := unsub_self_zero bus home hid h1 h2
          obtain ⟨k1, o1, t1⟩ := ih (Job.behJob b) (bus.unsub home hid) hk1 ho1
          have hexec : exec env (n + 1) (Job.handlerJob hid) bus
              = consRun hid (exec env n (Job.behJob b) (bus.unsub home hid)) := by
            simp [exec, hw]
          rw [hexec]
          refine ⟨k1, o1, ?_⟩
          simp only [consRun, List.count_cons_self]
          simp only [slack] at t1
          have hsl1 : totalCount bus hid = 0 →
              slack hid (Job.handlerJob hid) bus = 1 := by
            intro htc
            simp [slack, htc]
          have hsl0 : ¬ totalCount bus hid = 0 →
              slack hid (Job.handlerJob hid) bus = 0 := by
            intro htc
            simp [slack, htc]
          by_cases htc : totalCount bus hid = 0
          · rw [hsl1 htc]
            omega
          · rw [hsl0 htc]
            have hone : 1 ≤ totalCount bus hid := Nat.one_le_iff_ne_zero.mpr htc
            omega
        · have hk1 := keysNodup_unsub bus home0 hid h1
          have ho1 := onlyIn_unsub bus home0 hid home wid h2
          have hle := tc_unsub_le bus home0 hid wid
          obtain ⟨k1, o1, t1⟩ := ih (Job.behJob b0) (bus.unsub home0 hid) hk1 ho1
          have hexec : exec env (n + 1) (Job.handlerJob hid) bus
              = consRun hid (exec env n (Job.behJob b0) (bus.unsub home0 hid)) := by
            simp [exec, henv]
          rw [hexec]
          refine ⟨k1, o1, ?_⟩
          simp only [consRun]
          rw [List.count_cons_of_ne (Ne.symm hww)]
          simp only [slack] at t1
          have hnn : (0 : Nat) ≤ slack wid (Job.handlerJob hid) bus := Nat.zero_le _
          omega
    | behJob b0 =>
      cases b0 with
      | ok =>
        have hexec : exec env (n + 1) (Job.behJob Beh.ok) bus = (bus, []) := by
          simp [exec]
        rw [hexec]
        refine ⟨h1, h2, ?_⟩
        simp only [List.count_nil, slack]
        omega
      | err =>
        have hexec : exec env (n + 1) (Job.behJob Beh.err) bus = (bus, []) := by
          simp [exec]
        rw [hexec]
        refine ⟨h1, h2, ?_⟩
        simp only [List.count_nil, slack]
        omega
      | reemit chan =>
        obtain ⟨k1, o1, t1⟩ := ih (Job.emitJob chan) bus h1 h2
        have hexec : exec env (n + 1) (Job.behJob (Beh.reemit chan)) bus
            = exec env n (Job.emitJob chan) bus := by
          simp [exec]
        rw [hexec]
        refine ⟨k1, o1, ?_⟩
        simp only [slack] at t1 ⊢
        omega

theorem emitSeq_bound (env : Env) (home : String) (wid : Nat) (b : Beh)
    (hw : env wid = HSpec.onceWrap home b) (chans : List String) (fuel : Nat) :
    ∀ bus, keysNodup bus → onlyIn bus home wid →
      keysNodup (emitSeq env fuel bus chans).1 ∧
      onlyIn (emitSeq env fuel bus chans).1 home wid ∧
      totalCount (emitSeq env fuel bus chans).1 wid
          + ((emitSeq env fuel bus chans).2.count wid)
        ≤ totalCount bus wid := by
  induction chans with
  | nil =>
    intro bus h1 h2
    refine ⟨h1, h2, ?_⟩
    show totalCount bus wid + (List.count wid []) ≤ _
    simp
  | cons chan rest ih =>
    intro bus h1 h2
    obtain ⟨k1, o1, t1⟩ :=
      exec_once_main env home wid b hw fuel (Job.emitJob chan) bus h1 h2
    obtain ⟨k2, o2, t2⟩ := ih (exec env fuel (Job.emitJob chan) bus).1 k1 o1
    have hexec : emitSeq env fuel bus (chan :: rest)
        = seqRun (exec env fuel (Job.emitJob chan) bus)
            (fun bus1 => emitSeq env fuel bus1 rest) := by
      simp [emitSeq]
    rw [hexec]
    refine ⟨k2, o2, ?_⟩
    simp only [seqRun, List.count_append]
    simp only [slack] at t1
    omega

/-- C8: a callback registered via `once` (subscribeOnce) runs at most
once across any sequence of subsequent emits on any channels — even
when the wrapped callback synchronously re-emits its own channel: the
wrapper unsubscribes itself before invoking the callback, so a
re-entrant emit no longer finds it in the live Set. -/
theorem c8_subscribeOnce_at_most_once (env : Env) (home : String)
    (wid : Nat) (b : Beh) (bus0 : Bus)
    (hw : env wid = HSpec.onceWrap home b)
    (hnodup : keysNodup bus0)
    (hfresh : ∀ p ∈ bus0.listeners, wid ∉ p.2)
    (fuel : Nat) (chans : List String) :
    ((emitSeq env fuel (bus0.once home wid) chans).2).count wid ≤ 1 := by
  have h1 : keysNodup (bus0.once home wid) :=
    keysNodup_on bus0 home wid hnodup
  have h2 : onlyIn (bus0.once home wid) home wid :=
    onlyIn_on_fresh bus0 home wid hfresh
  have h3 : totalCount (bus0.once home wid) wid ≤ 1 :=
    tc_on_fresh_le_one bus0 home wid hfresh
  obtain ⟨-, -, t⟩ :=
    emitSeq_bound env home wid b hw chans fuel (bus0.once home wid) h1 h2
  omega

/-- Example callback table: id 0 is the wrapper made by `once` around a
callback that synchronously re-emits its own channel. -/
def egOnceEnv : Env := fun hid =>
  if hid = 0 then
    HSpec.onceWrap "settings:changed" (Beh.reemit "settings:changed")
  else HSpec.plain Beh.ok

/-- Witness for C8: the re-entrant once-subscriber on an otherwise
empty bus, emitted twice, still fires at most once. -/
theorem c8_witness :
    ((emitSeq egOnceEnv 6 ((⟨[]⟩ : Bus).once "settings:changed" 0)
        ["settings:changed", "settings:changed"]).2).count 0 ≤ 1 :=
  c8_subscribeOnce_at_most_once egOnceEnv "settings:changed" 0
    (Beh.reemit "settings:changed") ⟨[]⟩ (by rfl)
    (by simp [keysNodup]) (by simp) 6
    ["settings:changed", "settings:changed"]

/-! ### Subscriber isolation (C7) -/

/-- A callback that returns normally or throws (no re-entrant emit, no
subscription change) — the setting of the isolation claim. -/
def nonMutating (env : Env) (hid : Nat) : Prop :=
  env hid = HSpec.plain Beh.ok ∨ env hid = HSpec.plain Beh.err

theorem exec_beh_pure (env : Env) (fuel : Nat) (bus : Bus) (b : Beh)
    (h : b = Beh.ok ∨ b = Beh.err) :
    exec env fuel (Job.behJob b) bus = (bus, []) := by
  cases fuel with
  | zero => rfl
  | succ n => rcases h with h | h <;> subst h <;> rfl

theorem exec_handler_pure (env : Env) (fuel : Nat) (bus : Bus) (hid : Nat)
    (h : nonMutating env hid) :
    exec env (fuel + 1) (Job.handlerJob hid) bus = (bus, [hid]) := by
  rcases h with h | h
  · have hexec : exec env (fuel + 1) (Job.handlerJob hid) bus
        = consRun hid (exec env fuel (Job.behJob Beh.ok) bus) := by
      simp [exec, h]
    rw [hexec, exec_beh_pure env fuel bus Beh.ok (Or.inl rfl)]
    rfl
  · have hexec : exec env (fuel + 1) (Job.handlerJob hid) bus
        = consRun hid (exec env fuel (Job.behJob Beh.err) bus) := by
      simp [exec, h]
    rw [hexec, exec_beh_pure env fuel bus Beh.err (Or.inr rfl)]
    rfl

theorem exec_list_pure (env : Env) (chan : String) :
    ∀ (pending : List Nat) (fuel : Nat) (bus : Bus),
      (∀ hid ∈ pending, hid ∈ bus.getHandlers chan) →
      (∀ hid ∈ pending, nonMutating env hid) →
      pending.length + 1 ≤ fuel →
      exec env fuel (Job.listJob chan pending) bus = (bus, pending) := by
  intro pending
  induction pending with
  | nil =>
    intro fuel bus hsub hnm hfuel
    cases fuel with
    | zero => omega
    | succ n => rfl
  | cons hid rest ih =>
    intro fuel bus hsub hnm hfuel
    cases fuel with
    | zero => omega
    | succ n =>
      cases n with
      | zero => simp at hfuel
      | succ m =>
        have hmem : hid ∈ bus.getHandlers chan :=
          hsub hid (List.mem_cons_self _ _)
        have hexec : exec env (m + 1 + 1) (Job.listJob chan (hid :: rest)) bus
            = seqRun (exec env (m + 1) (Job.handlerJob hid) bus)
                (fun bus1 => exec env (m + 1) (Job.listJob chan rest) bus1) := by
          simp [exec, hmem]
        have hrest : exec env (m + 1) (Job.listJob chan rest) bus
            = (bus, rest) :=
          ih (m + 1) bus (fun x hx => hsub x (List.mem_cons_of_mem _ hx))
            (fun x hx => hnm x (List.mem_cons_of_mem _ hx))
            (by simp at hfuel; omega)
        rw [hexec, exec_handler_pure env m bus hid
          (hnm hid (List.mem_cons_self _ _))]
        simp [seqRun, hrest]

/-- C7: publishing on a channel where every current subscriber (channel
Set and wildcard Set) either returns or throws invokes exactly the
channel subscribers in order, then exactly the wildcard subscribers —
a throwing handler (its error caught inside emit) prevents neither the
rest of the channel Set nor the wildcard Set from running; the listener
structure is unchanged; and each id is invoked exactly as often as it
is subscribed (once per Set by Set-ness).  The embedding of `emit` is a
total function: the caught error never propagates to the publisher. -/
theorem c7_subscriber_isolation (env : Env) (bus : Bus) (chan : String)
    (fuel : Nat)
    (hnm : ∀ hid ∈ bus.getHandlers chan ++ bus.getHandlers "*",
      nonMutating env hid)
    (hfuel : (bus.getHandlers chan).length + (bus.getHandlers "*").length + 2
      ≤ fuel) :
    (exec env fuel (Job.emitJob chan) bus).2
        = bus.getHandlers chan ++ bus.getHandlers "*" ∧
    (exec env fuel (Job.emitJob chan) bus).1 = bus ∧
    ∀ hid, ((exec env fuel (Job.emitJob chan) bus).2).count hid
        = (bus.getHandlers chan).count hid
          + (bus.getHandlers "*").count hid := by
  cases fuel with
  | zero => omega
  | succ n =>
    have hexec : exec env (n + 1) (Job.emitJob chan) bus
        = seqRun (exec env n (Job.listJob chan (bus.getHandlers chan)) bus)
            (fun bus1 => exec env n (Job.listJob "*" (bus1.getHandlers "*")) bus1) := by
      simp [exec]
    have h1 : exec env n (Job.listJob chan (bus.getHandlers chan)) bus
        = (bus, bus.getHandlers chan) :=
      exec_list_pure env chan (bus.getHandlers chan) n bus (fun x hx => hx)
        (fun x hx => hnm x (List.mem_append.mpr (Or.inl hx)))
        (by simp at hfuel; omega)
    have h2 : exec env n (Job.listJob "*" (bus.getHandlers "*")) bus
        = (bus, bus.getHandlers "*") :=
      exec_list_pure env "*" (bus.getHandlers "*") n bus (fun x hx => hx)
        (fun x hx => hnm x (List.mem_append.mpr (Or.inr hx)))
        (by simp at hfuel; omega)
    rw [hexec]
    refine ⟨?_, ?_, ?_⟩ <;> simp [seqRun, h1, h2, List.count_append]

/-- Example callback table where callback 1 throws and all others
return normally. -/
def egBusEnv : Env := fun hid =>
  if hid = 1 then HSpec.plain Beh.err else HSpec.plain Beh.ok

/-- Example bus: three subscribers on `settings:changed` — the second
one throws — plus one wildcard subscriber. -/
def egBus : Bus :=
  ⟨[("settings:changed", [0, 1, 2]), ("*", [3])]⟩

/-- Witness for C7 at the concrete bus: handler 1 throws, yet handlers
0, 1, 2 and the wildcard handler 3 each run exactly once, in order. -/
theorem c7_witness :
    (exec egBusEnv 10 (Job.emitJob "settings:changed") egBus).2
        = egBus.getHandlers "settings:changed" ++ egBus.getHandlers "*" ∧
    (exec egBusEnv 10 (Job.emitJob "settings:changed") egBus).1 = egBus ∧
    ∀ hid, ((exec egBusEnv 10 (Job.emitJob "settings:changed") egBus).2).count hid
        = (egBus.getHandlers "settings:changed").count hid
          + (egBus.getHandlers "*").count hid :=
  c7_subscriber_isolation egBusEnv egBus "settings:changed" 10
    (by unfold nonMutating; decide) (by decide)

/-! ## Aliasing model for the defensive-copy claim (C9)

`getAll()` and `getProfiles()` both return spread copies.  A spread
copy is a fresh top-level object, but its property values are copied by
reference: the values of `this.profiles` are themselves objects (the
per-profile mappings), so the copy returned by `getProfiles` shares
them with the manager.  To express caller-side mutation, the flat
settings objects live on a heap of numbered cells, and the profile
mapping stores cell references — exactly the JS object graph. -/

/-- A heap of flat settings objects; `next` is the next fresh address. -/
structure JsHeap where
  cells : List (Nat × SettingsMap)
  next : Nat
  deriving DecidableEq

/-- Read the object at address `r`. -/
def heapRead : List (Nat × SettingsMap) → Nat → Option SettingsMap
  | [], _ => none
  | (a, m) :: rest, r => if a = r then some m else heapRead rest r

/-- Replace the object at address `r`. -/
def heapWrite : List (Nat × SettingsMap) → Nat → SettingsMap →
    List (Nat × SettingsMap)
  | [], _, _ => []
  | (a, m) :: rest, r, v =>
    if a = r then (a, v) :: rest else (a, m) :: heapWrite rest r v

/-- Allocate a fresh object (JS object literals and spreads allocate). -/
def JsHeap.alloc (h : JsHeap) (m : SettingsMap) : Nat × JsHeap :=
  (h.next, ⟨(h.next, m) :: h.cells, h.next + 1⟩)

/-- A caller-side property write `obj[k] = v` through reference `r`. -/
def JsHeap.setField (h : JsHeap) (r : Nat) (k : String) (v : SVal) : JsHeap :=
  match heapRead h.cells r with
  | none => h
  | some m => { h with cells := heapWrite h.cells r (jsSet m k v) }

/-- The manager state in the heap model: `this.settings` is a reference
to a flat object, and `this.profiles` maps profile names to references
to flat objects. -/
structure SettingsH where
  settingsRef : Nat
  profiles : List (String × Nat)
  deriving DecidableEq

/-- `getAll()` in the heap model: the spread `\x7b...this.settings\x7d`
allocates a fresh object holding the same (primitive) entries. -/
def getAllH (h : JsHeap) (st : SettingsH) : Nat × JsHeap :=
  h.alloc ((heapRead h.cells st.settingsRef).getD [])

/-- `getProfiles()` in the heap model: the spread of `this.profiles` is
a fresh top-level object with the same entries, whose values are the
same references — the per-profile objects are shared. -/
def getProfilesH (st : SettingsH) : List (String × Nat) :=
  st.profiles

theorem heapRead_heapWrite_ne (cells : List (Nat × SettingsMap))
    (r r2 : Nat) (v : SettingsMap) (h : r ≠ r2) :
    heapRead (heapWrite cells r v) r2 = heapRead cells r2 := by
  induction cells with
  | nil => rfl
  | cons hd tl ih =>
    obtain ⟨a, m⟩ := hd
    by_cases h0 : a = r
    · subst h0
      simp only [heapWrite, if_pos rfl]
      simp only [heapRead, if_neg h]
    · simp only [heapWrite, if_neg h0, heapRead]
      by_cases h1 : a = r2
      · simp [h1]
      · simp [h1, ih]

/-- Allocate the per-profile objects for a profile content list,
returning the name-to-reference mapping (the heap form of
`getDefaultProfiles`, where every profile literal allocates). -/
def allocProfiles : JsHeap → List (String × SettingsMap) →
    List (String × Nat) × JsHeap
  | h, [] => ([], h)
  | h, (n, m) :: rest =>
    ((n, (h.alloc m).1) :: (allocProfiles (h.alloc m).2 rest).1,
      (allocProfiles (h.alloc m).2 rest).2)

/-- The manager heap state after construction and `load()` on a fresh
store: the default settings object plus the seven built-in profile
objects. -/
def egHeapInit : JsHeap × SettingsH :=
  ((allocProfiles (JsHeap.alloc ⟨[], 0⟩ defaultSettings).2
      getDefaultProfiles).2,
    ⟨(JsHeap.alloc ⟨[], 0⟩ defaultSettings).1,
      (allocProfiles (JsHeap.alloc ⟨[], 0⟩ defaultSettings).2
        getDefaultProfiles).1⟩)

/-- Counterexample to C9 as stated: `getProfiles()` is a shallow copy.
The caller receives the same reference for `highContrast` that the
manager holds internally, and a single field write through that
reference changes the content the manager reads for its own profile
entry — caller mutation of a nested per-profile mapping does reach the
internal state. -/
theorem c9_counterexample :
    jsGet (getProfilesH egHeapInit.2) "highContrast"
      = jsGet egHeapInit.2.profiles "highContrast" ∧
    heapRead ((egHeapInit.1.setField 2 "fontSize" (SVal.n 999)).cells)
        ((jsGet egHeapInit.2.profiles "highContrast").getD 0)
      ≠ heapRead egHeapInit.1.cells
        ((jsGet egHeapInit.2.profiles "highContrast").getD 0) := by
  constructor
  · rfl
  · decide

/-- C9 (amended): `getAll()` is an effective defensive copy — it
returns a freshly allocated object, so any field write the caller
performs on it leaves the manager's settings object unchanged — and the
top-level mapping returned by `getProfiles()` is itself a fresh object
equal to the internal one; but the copy is shallow: the nested
per-profile mappings are the same heap objects as the manager's, so
mutating one through the returned mapping mutates the manager's
internal profile state (shown by the counterexample). -/
theorem c9_amended_shallow_copies (h : JsHeap) (st : SettingsH)
    (hwf : st.settingsRef < h.next) :
    (getAllH h st).1 ≠ st.settingsRef ∧
    (∀ k v, heapRead (((getAllH h st).2.setField (getAllH h st).1 k v)).cells
          st.settingsRef
        = heapRead (getAllH h st).2.cells st.settingsRef) ∧
    getProfilesH st = st.profiles := by
  refine ⟨?_, ?_, rfl⟩
  · intro hc
    rw [show (getAllH h st).1 = h.next from rfl] at hc
    omega
  · intro k v
    unfold JsHeap.setField
    cases hr : heapRead (getAllH h st).2.cells (getAllH h st).1 with
    | none => rfl
    | some m =>
      show heapRead (heapWrite (getAllH h st).2.cells (getAllH h st).1
          (jsSet m k v)) st.settingsRef = _
      apply heapRead_heapWrite_ne
      intro hc
      rw [show (getAllH h st).1 = h.next from rfl] at hc
      omega

/-- Witness for the amended C9 at the concrete loaded heap state. -/
theorem c9_witness :
    (getAllH egHeapInit.1 egHeapInit.2).1 ≠ egHeapInit.2.settingsRef ∧
    (∀ k v, heapRead (((getAllH egHeapInit.1 egHeapInit.2).2.setField
          (getAllH egHeapInit.1 egHeapInit.2).1 k v)).cells
          egHeapInit.2.settingsRef
        = heapRead (getAllH egHeapInit.1 egHeapInit.2).2.cells
          egHeapInit.2.settingsRef) ∧
    getProfilesH egHeapInit.2 = egHeapInit.2.profiles :=
  c9_amended_shallow_copies egHeapInit.1 egHeapInit.2 (by decide)

end Spicy
